import Mathlib

/-!
Shallow embedding of `src/shared/js/moz_intl.js` (the mozIntl shim).

JavaScript numbers are modelled as exact rationals (`ℚ`); the float
rounding of IEEE doubles is abstracted away.  `Math.round`, `Math.floor`
and `Math.abs` become `jround`, `Int.floor` and `|·|`.  JS objects used
as ordered maps become association lists; functions that can `throw`
return `Except String`, and the `Promise.resolve(undefined)` soft-failure
of `getFormattedUnit` is modelled as `Except.ok none`.
-/

namespace MozIntl

/-- JS `Math.round`: round half toward positive infinity
(`Math.round(-1.5) = -1`, `Math.round(1.5) = 2`). -/
def jround (q : ℚ) : ℤ := ⌊q + 1/2⌋

/-! ### Static data used by DurationFormat (source lines 291–298) -/

/-- `durationFormatOrder = ['hour', 'minute', 'second', 'millisecond']`. -/
def durationFormatOrder : List String := ["hour", "minute", "second", "millisecond"]

/-- One entry of the `durationFormatElements` object. -/
structure DurationElement where
  value : ℚ
  token : String
  deriving DecidableEq

/-- `durationFormatElements`: value (in ms; milliseconds are counted in
tens, per the source comment "rounding milliseconds to tens") and
pattern token of each duration unit. `none` models property lookup of an
unknown key returning `undefined`. -/
def durationFormatElements (name : String) : Option DurationElement :=
  if name = "hour" then some ⟨3600000, "hh"⟩
  else if name = "minute" then some ⟨60000, "mm"⟩
  else if name = "second" then some ⟨1000, "ss"⟩
  else if name = "millisecond" then some ⟨10, "SS"⟩
  else none

/-- `durationFormatElements[name].value`, defaulting to 0 for unknown names
(the source only ever looks up names drawn from `durationFormatOrder`). -/
def durationValue (name : String) : ℚ :=
  ((durationFormatElements name).map DurationElement.value).getD 0

/-- `durationFormatElements[name].token`, defaulting to `""`. -/
def durationToken (name : String) : String :=
  ((durationFormatElements name).map DurationElement.token).getD ""

/-- The value of the duration unit at index `i` of `durationFormatOrder`. -/
def durationValueAt (i : ℕ) : ℚ := durationValue (durationFormatOrder.getD i "")

/-! ### computeTimeUnits (source lines 379–397) -/

/-- The mapping built by `computeTimeUnits`, field order as inserted by
the source. -/
structure TimeUnits where
  millisecond : ℤ
  second : ℤ
  minute : ℤ
  hour : ℤ
  day : ℤ
  week : ℤ
  month : ℤ
  quarter : ℤ
  year : ℤ
  deriving DecidableEq

/-- `computeTimeUnits(v)`: cascading rounding, each unit derived from the
previous rounded unit; `rawYear = day * 400 / 146097`. -/
def computeTimeUnits (v : ℚ) : TimeUnits :=
  let millisecond := jround v
  let second := jround ((millisecond : ℚ) / 1000)
  let minute := jround ((second : ℚ) / 60)
  let hour := jround ((minute : ℚ) / 60)
  let day := jround ((hour : ℚ) / 24)
  let rawYear : ℚ := (day : ℚ) * 400 / 146097
  { millisecond := millisecond
    second := second
    minute := minute
    hour := hour
    day := day
    week := jround ((day : ℚ) / 7)
    month := jround (rawYear * 12)
    quarter := jround (rawYear * 4)
    year := jround rawYear }

/-- JS property access `units[unit]` on the object built by
`computeTimeUnits`; 0 stands in for `undefined` on unknown names. -/
def unitsGet (u : TimeUnits) (name : String) : ℤ :=
  if name = "millisecond" then u.millisecond
  else if name = "second" then u.second
  else if name = "minute" then u.minute
  else if name = "hour" then u.hour
  else if name = "day" then u.day
  else if name = "week" then u.week
  else if name = "month" then u.month
  else if name = "quarter" then u.quarter
  else if name = "year" then u.year
  else 0

/-! ### getBestMatchUnit (source lines 402–412) -/

/-- `getBestMatchUnit(units)`: ordered threshold walk on absolute
magnitudes.  The `second` and `quarter` thresholds are commented out in
the source and hence absent here as well. -/
def getBestMatchUnit (units : TimeUnits) : String :=
  if |units.minute| < 45 then "minute"
  else if |units.hour| < 22 then "hour"
  else if |units.day| < 7 then "day"
  else if |units.week| < 4 then "week"
  else if |units.month| < 11 then "month"
  else "year"

/-! ### relativeTimeFormatId (source lines 414–433) -/

/-- The options object consumed by `relativeTimeFormatId`; `style = none`
models an absent (JS falsy) `style` property. -/
structure RelativeTimeOptions where
  unit : String
  style : Option String
  deriving DecidableEq

/-- `relativeTimeFormatId(x, options)`.  The source reads `Date.now()`
internally; it is passed here as the explicit argument `nowMs`.  Returns
the `{unit: entry, value: Math.abs(v)}` pair. -/
def relativeTimeFormatId (x : ℚ) (options : RelativeTimeOptions) (nowMs : ℚ) :
    String × ℤ :=
  let ms := x - nowMs
  let units := computeTimeUnits ms
  let unit := if options.unit = "bestFit" then getBestMatchUnit units else options.unit
  let v := unitsGet units unit
  let tl := if v < 0 then "-ago" else "-until"
  let style := options.style.getD "long"
  (unit ++ "s" ++ tl ++ "-" ++ style, |v|)

/-! ### getDurationUnitIdx, splitIntoTimeUnits, trimDurationPattern,
DurationFormat.format (source lines 88–117, 333–374) -/

/-- `getDurationUnitIdx(name, defaultValue)`: `""` models a JS-falsy
`name`; an unknown non-empty name throws `Unknown unit type`.
`List.indexOf` returns the list length where JS `indexOf` returns -1. -/
def getDurationUnitIdx (name : String) (defaultValue : ℕ) : Except String ℕ :=
  if name = "" then .ok defaultValue
  else
    let pos := durationFormatOrder.indexOf name
    if pos = durationFormatOrder.length then .error ("Unknown unit type: " ++ name)
    else .ok pos

/-- The body of the `for (var i = maxUnitIdx; i <= minUnitIdx; i++)` loop
of `splitIntoTimeUnits`, with an explicit iteration budget `fuel`
(the caller passes `minUnitIdx + 1 - maxUnitIdx`, exactly the number of
loop iterations). -/
def splitGo (input : ℚ) (minUnitIdx : ℕ) : ℕ → ℕ → List (String × ℤ)
  | _, 0 => []
  | i, fuel + 1 =>
    if i ≤ minUnitIdx then
      let key := durationFormatOrder.getD i ""
      let value := durationValue key
      let mag : ℤ := if i = minUnitIdx then jround (input / value) else ⌊input / value⌋
      (key, mag) :: splitGo (input - mag * value) minUnitIdx (i + 1) fuel
    else []

/-- `splitIntoTimeUnits(v, maxUnitIdx, minUnitIdx)`: works on `|v|` and
walks the unit order from `maxUnitIdx` to `minUnitIdx`; floor for every
unit except the last, which is rounded.  The JS object written in unit
order is modelled as an association list. -/
def splitIntoTimeUnits (v : ℚ) (maxUnitIdx minUnitIdx : ℕ) : List (String × ℤ) :=
  splitGo |v| minUnitIdx maxUnitIdx (minUnitIdx + 1 - maxUnitIdx)

/-- `Σ magnitude[u] * baseValue[u]` over the entries of a breakdown. -/
def breakdownSum (l : List (String × ℤ)) : ℚ :=
  (l.map (fun p => (p.2 : ℚ) * durationValue p.1)).sum

/-- The pre-rounding step of `DurationFormat.format` (source lines 96–97):
`input = Math.round(input / minValue) * minValue`. -/
def durationPreRound (input : ℚ) (minUnit : String) : ℚ :=
  let minValue := durationValue minUnit
  (jround (input / minValue) : ℚ) * minValue

/-- The numeric pipeline of `DurationFormat` (source lines 88–99): resolve
the unit indices at construction time, then pre-round the whole input to
the nearest multiple of `minUnit`'s value and split it. -/
def durationBreakdown (input : ℚ) (maxUnit minUnit : String) :
    Except String (List (String × ℤ)) := do
  let maxUnitIdx ← getDurationUnitIdx maxUnit 0
  let minUnitIdx ← getDurationUnitIdx minUnit (durationFormatOrder.length - 1)
  return splitIntoTimeUnits (durationPreRound input minUnit) maxUnitIdx minUnitIdx

/-- JS `String.prototype.indexOf`: index of the first occurrence of `t`
in `s`, or -1 when `t` does not occur. -/
def jsIndexOf (s t : String) : ℤ :=
  (((List.range (s.length + 1)).find?
    (fun i => t.toList.isPrefixOf (s.toList.drop i))).map Int.ofNat).getD (-1)

/-- JS `String.prototype.substring(a, b)`: both arguments are clamped to
`[0, length]` and swapped when `a > b`. -/
def jsSubstring (s : String) (a b : ℤ) : String :=
  let len : ℤ := s.length
  let lo := min (min (max a 0) len) (min (max b 0) len)
  let hi := max (min (max a 0) len) (min (max b 0) len)
  String.mk ((s.toList.take hi.toNat).drop lo.toNat)

/-- `trimDurationPattern(string, maxUnit, minUnit)` (source lines
363–374): `string.substring(string.indexOf(maxToken),
string.indexOf(minToken) + minToken.length)`. -/
def trimDurationPattern (s maxUnit minUnit : String) : String :=
  let maxToken := durationToken maxUnit
  let minToken := durationToken minUnit
  jsSubstring s (jsIndexOf s maxToken) (jsIndexOf s minToken + minToken.length)

/-! ### Unit-format data and getFormattedUnit (source lines 253–283, 300–328) -/

/-- One entry of the `unitFormatData` lists. -/
structure UnitFormatEntry where
  name : String
  value : ℚ
  deriving DecidableEq

/-- `unitFormatData`: per-group scale tables (seconds for `duration`,
bytes for `digital`). -/
def unitFormatData (type : String) : Option (List UnitFormatEntry) :=
  if type = "duration" then
    some [⟨"second", 1⟩, ⟨"minute", 60⟩, ⟨"hour", 60 * 60⟩,
          ⟨"day", 24 * 60 * 60⟩, ⟨"month", 30 * 24 * 60 * 60⟩]
  else if type = "digital" then
    some [⟨"byte", 1⟩, ⟨"kilobyte", 1024⟩, ⟨"megabyte", 1024 * 1024⟩,
          ⟨"gigabyte", 1024 * 1024 * 1024⟩, ⟨"terabyte", 1024 * 1024 * 1024 * 1024⟩]
  else none

/-- One entry of the `unitFormatGroups` object. -/
structure UnitFormatGroup where
  units : List String
  styles : List String
  rounding : ℚ
  deriving DecidableEq

/-- `unitFormatGroups`: allowed styles and promotion rounding factor of
each group. -/
def unitFormatGroups (type : String) : Option UnitFormatGroup :=
  if type = "duration" then
    some ⟨["second", "minute", "hour", "day", "month"], ["narrow"], 1⟩
  else if type = "digital" then
    some ⟨["byte", "kilobyte", "megabyte", "gigabyte", "terabyte"], ["short"], 0.8⟩
  else none

/-- The scale-selection loop of `getFormattedUnit` (source lines 266–275):
`for (let i = 1; i < units.length; i++) { if (v < units[i].value *
rounding) { scale = i - 1; break; } else if (i === units.length - 1)
{ scale = i; } }`, with the loop counter `i`, the running `scale`
variable, and an explicit iteration budget (the caller passes
`units.length`, an upper bound on the remaining iterations). -/
def scaleGo (units : List UnitFormatEntry) (rounding v : ℚ) : ℕ → ℕ → ℕ → ℕ
  | _, scale, 0 => scale
  | i, scale, fuel + 1 =>
    if i < units.length then
      if v < (units.getD i ⟨"", 0⟩).value * rounding then i - 1
      else scaleGo units rounding v (i + 1)
        (if i = units.length - 1 then i else scale) fuel
    else scale

/-- `mozIntl._gaia.getFormattedUnit(type, style, v)` up to (and
excluding) the final localized-string lookup: it returns the selected
unit name together with the two-decimal scaled value.  The argument
`v : Option ℚ` models `parseInt`: `none` stands for a value that is not
a finite, parseable number (`isNaN(parseInt(v))`), for which the source
returns `Promise.resolve(undefined)` — modelled as `.ok none`.  The two
`throw new RangeError` paths are modelled as `.error`. -/
def getFormattedUnit (type style : String) (v : Option ℚ) :
    Except String (Option (String × ℚ)) :=
  match v with
  | none => .ok none
  | some v =>
    match unitFormatData type, unitFormatGroups type with
    | some units, some group =>
      if group.styles.contains style then
        let scale := scaleGo units group.rounding v 1 0 units.length
        let value := (jround (v / (units.getD scale ⟨"", 0⟩).value * 100) : ℚ) / 100
        .ok (some ((units.getD scale ⟨"", 0⟩).name, value))
      else .error ("invalid style " ++ style ++ " for type " ++ type)
    | _, _ => .error ("invalid type " ++ type)

/-- Modelled from the spec: the spec-worded scale choice — walk the
group's units from the second index upward, pick the first index `i`
with `magnitude < units[i].baseValue * roundingFactor` and choose scale
`i - 1`; if there is no such `i`, choose the last unit. -/
def specScaleIdx (units : List UnitFormatEntry) (rounding v : ℚ) : ℕ :=
  match (List.range' 1 (units.length - 1)).find?
      (fun i => v < (units.getD i ⟨"", 0⟩).value * rounding) with
  | some i => i - 1
  | none => units.length - 1

/-! ### Spec-side definitions for BestFitUnitSelector and RelativeKeyResolver -/

/-- Modelled from the spec's threshold table for `bestFit`: the ordered
`(unit, threshold)` pairs, first match on absolute magnitude wins. -/
def bestFitThresholds : List (String × ℤ) :=
  [("minute", 45), ("hour", 22), ("day", 7), ("week", 4), ("month", 11)]

/-- Spec-side reading of `bestFit`: the first entry of the threshold
table whose absolute magnitude is below its threshold, else `year`. -/
def firstMatchUnit (u : TimeUnits) : String :=
  ((bestFitThresholds.find? (fun p => |unitsGet u p.1| < p.2)).map Prod.fst).getD "year"

/-- The nine unit names `computeTimeUnits` populates. -/
def relativeUnitNames : List String :=
  ["millisecond", "second", "minute", "hour", "day", "week", "month", "quarter", "year"]

end MozIntl

namespace MozIntl

/-- C2: for every input `diffMs`, `computeTimeUnits` returns exactly the
cascade: millisecond = round(diffMs); second = round(millisecond/1000);
minute = round(second/60); hour = round(minute/60); day = round(hour/24);
week = round(day/7); rawYear = day*400/146097; month = round(rawYear*12);
quarter = round(rawYear*4); year = round(rawYear) — each successive unit
derived from the previous rounded unit, never recomputed from the raw
millisecond value. -/
theorem computeTimeUnits_cascade (v : ℚ) :
    (computeTimeUnits v).millisecond = jround v ∧
    (computeTimeUnits v).second = jround (((computeTimeUnits v).millisecond : ℚ) / 1000) ∧
    (computeTimeUnits v).minute = jround (((computeTimeUnits v).second : ℚ) / 60) ∧
    (computeTimeUnits v).hour = jround (((computeTimeUnits v).minute : ℚ) / 60) ∧
    (computeTimeUnits v).day = jround (((computeTimeUnits v).hour : ℚ) / 24) ∧
    (computeTimeUnits v).week = jround (((computeTimeUnits v).day : ℚ) / 7) ∧
    (computeTimeUnits v).month =
      jround ((computeTimeUnits v).day * 400 / 146097 * 12) ∧
    (computeTimeUnits v).quarter =
      jround ((computeTimeUnits v).day * 400 / 146097 * 4) ∧
    (computeTimeUnits v).year =
      jround ((computeTimeUnits v).day * 400 / 146097) :=
  ⟨rfl, rfl, rfl, rfl, rfl, rfl, rfl, rfl, rfl⟩

/-- C3: `getBestMatchUnit` is the first match of the ordered threshold
table (minute 45, hour 22, day 7, week 4, month 11, else year) on
absolute magnitudes, and consequently never returns `"second"` or
`"quarter"` for any input. -/
theorem getBestMatchUnit_thresholds (u : TimeUnits) :
    getBestMatchUnit u = firstMatchUnit u ∧
    getBestMatchUnit u ≠ "second" ∧ getBestMatchUnit u ≠ "quarter" := by
  have hm : unitsGet u "minute" = u.minute := rfl
  have hh : unitsGet u "hour" = u.hour := rfl
  have hd : unitsGet u "day" = u.day := rfl
  have hw : unitsGet u "week" = u.week := rfl
  have hmo : unitsGet u "month" = u.month := rfl
  refine ⟨?_, ?_, ?_⟩
  · unfold firstMatchUnit bestFitThresholds getBestMatchUnit
    by_cases h1 : |u.minute| < 45
    · simp [hm, h1]
    · by_cases h2 : |u.hour| < 22
      · simp [hm, hh, h1, h2]
      · by_cases h3 : |u.day| < 7
        · simp [hm, hh, hd, h1, h2, h3]
        · by_cases h4 : |u.week| < 4
          · simp [hm, hh, hd, hw, h1, h2, h3, h4]
          · by_cases h5 : |u.month| < 11
            · simp [hm, hh, hd, hw, hmo, h1, h2, h3, h4, h5]
            · simp [hm, hh, hd, hw, hmo, h1, h2, h3, h4, h5]
  · unfold getBestMatchUnit
    split_ifs <;> simp
  · unfold getBestMatchUnit
    split_ifs <;> simp

/-- The scale loop computes the spec-worded first-match choice, for any
start `i`, any running `scale` value, and any sufficient fuel. -/
theorem scaleGo_find (units : List UnitFormatEntry) (r v : ℚ) :
    ∀ fuel i s, units.length ≤ i + fuel →
      scaleGo units r v i s fuel =
        match (List.range' i (units.length - i)).find?
            (fun j => v < (units.getD j ⟨"", 0⟩).value * r) with
        | some j => j - 1
        | none => if i < units.length then units.length - 1 else s := by
  intro fuel
  induction fuel with
  | zero =>
    intro i s hle
    have h0 : units.length - i = 0 := by omega
    have hni : ¬ i < units.length := by omega
    simp [scaleGo, h0, hni]
  | succ fuel ih =>
    intro i s hle
    by_cases hi : i < units.length
    · have hsplit : units.length - i = (units.length - (i + 1)) + 1 := by omega
      rw [hsplit, List.range'_succ]
      by_cases hv : v < (units.getD i ⟨"", 0⟩).value * r
      · rw [List.find?_cons_of_pos _ (by simpa using hv)]
        simp only [scaleGo, if_pos hi, if_pos hv]
      · rw [List.find?_cons_of_neg _ (by simpa using hv)]
        have hrec := ih (i + 1) (if i = units.length - 1 then i else s) (by omega)
        simp only [scaleGo, if_pos hi, if_neg hv]
        rw [hrec]
        rcases h : (List.range' (i + 1) (units.length - (i + 1))).find?
            (fun j => v < (units.getD j ⟨"", 0⟩).value * r) with _ | j
        · by_cases hlast : i + 1 < units.length
          · simp [hlast]
          · have : i = units.length - 1 := by omega
            simp [hlast, this]
        · rfl
    · have h0 : units.length - i = 0 := by omega
      simp [scaleGo, hi, h0]

/-- At the source's call site (`i = 1`, `scale = 0`, fuel
`units.length`), the loop returns exactly the spec's scale choice. -/
theorem scaleGo_eq_specScaleIdx (units : List UnitFormatEntry) (r v : ℚ) :
    scaleGo units r v 1 0 units.length = specScaleIdx units r v := by
  rw [specScaleIdx, scaleGo_find units r v units.length 1 0 (by omega)]
  rcases h : (List.range' 1 (units.length - 1)).find?
      (fun j => v < (units.getD j ⟨"", 0⟩).value * r) with _ | j
  · by_cases h1 : 1 < units.length
    · simp [h1]
    · interval_cases h2 : units.length <;> simp_all
  · rfl

/-- C7: for every unit group and magnitude, `getFormattedUnit` picks the
first index `i` (walking from the second unit upward) with
`magnitude < units[i].baseValue * roundingFactor` and chooses scale
`i - 1`, or the last unit if no such `i` exists; the scaled value is
`round(magnitude / units[scale].baseValue * 100) / 100`; in particular
`selectScale(digital, 1536)` returns unit `kilobyte` with scaled
value 1.5. -/
theorem getFormattedUnit_spec (type style : String) (units : List UnitFormatEntry)
    (group : UnitFormatGroup) (v : ℚ)
    (h1 : unitFormatData type = some units) (h2 : unitFormatGroups type = some group)
    (h3 : group.styles.contains style) :
    getFormattedUnit type style (some v) =
      .ok (some ((units.getD (specScaleIdx units group.rounding v) ⟨"", 0⟩).name,
        (jround (v / (units.getD (specScaleIdx units group.rounding v) ⟨"", 0⟩).value
          * 100) : ℚ) / 100)) ∧
    getFormattedUnit "digital" "short" (some 1536) = .ok (some ("kilobyte", 1.5)) := by
  constructor
  · simp only [getFormattedUnit, h1, h2, if_pos h3, scaleGo_eq_specScaleIdx]
  · have hd : unitFormatData "digital" =
        some [⟨"byte", 1⟩, ⟨"kilobyte", 1024⟩, ⟨"megabyte", 1024 * 1024⟩,
          ⟨"gigabyte", 1024 * 1024 * 1024⟩, ⟨"terabyte", 1024 * 1024 * 1024 * 1024⟩] := rfl
    have hg : unitFormatGroups "digital" =
        some ⟨["byte", "kilobyte", "megabyte", "gigabyte", "terabyte"], ["short"], 0.8⟩ := rfl
    have hc1 : ¬ ((1536 : ℚ) < 1024 * (0.8 : ℚ)) := by norm_num
    have hc2 : (1536 : ℚ) < 1024 * 1024 * (0.8 : ℚ) := by norm_num
    have hidx : specScaleIdx
        [⟨"byte", 1⟩, ⟨"kilobyte", 1024⟩, ⟨"megabyte", 1024 * 1024⟩,
          ⟨"gigabyte", 1024 * 1024 * 1024⟩, ⟨"terabyte", 1024 * 1024 * 1024 * 1024⟩]
        (0.8 : ℚ) 1536 = 1 := by
      simp [specScaleIdx, List.range', hc1, hc2]
    simp only [getFormattedUnit, hd, hg, scaleGo_eq_specScaleIdx, hidx]
    norm_num [jround]

/-- C7 witness: the theorem applied to the `digital` group at magnitude
1536 (style `short`), keeping its concrete conjunct. -/
theorem getFormattedUnit_spec_witness :
    unitFormatData "digital" =
      some [⟨"byte", 1⟩, ⟨"kilobyte", 1024⟩, ⟨"megabyte", 1024 * 1024⟩,
        ⟨"gigabyte", 1024 * 1024 * 1024⟩, ⟨"terabyte", 1024 * 1024 * 1024 * 1024⟩] ∧
    unitFormatGroups "digital" =
      some ⟨["byte", "kilobyte", "megabyte", "gigabyte", "terabyte"], ["short"], 0.8⟩ ∧
    (UnitFormatGroup.mk ["byte", "kilobyte", "megabyte", "gigabyte", "terabyte"]
        ["short"] 0.8).styles.contains "short" = true ∧
    getFormattedUnit "digital" "short" (some 1536) = .ok (some ("kilobyte", 1.5)) :=
  ⟨rfl, rfl, rfl,
    (getFormattedUnit_spec "digital" "short"
      [⟨"byte", 1⟩, ⟨"kilobyte", 1024⟩, ⟨"megabyte", 1024 * 1024⟩,
        ⟨"gigabyte", 1024 * 1024 * 1024⟩, ⟨"terabyte", 1024 * 1024 * 1024 * 1024⟩]
      ⟨["byte", "kilobyte", "megabyte", "gigabyte", "terabyte"], ["short"], 0.8⟩
      1536 rfl rfl rfl).2⟩

/-- C9 counterexample: a magnitude that is not a finite, parseable number
does not make `getFormattedUnit` fail with any error: the source returns
`Promise.resolve(undefined)` (here `.ok none`), a silent default. -/
theorem getFormattedUnit_nan_counterexample :
    getFormattedUnit "digital" "short" none = .ok none := rfl

/-- C9 amended: for every type and style, a magnitude that is not a
finite, parseable number makes `getFormattedUnit` return a resolved
`undefined` (`.ok none`) — a silent soft-failure checked before any
type or style validation, not an `InvalidUnit` error. -/
theorem getFormattedUnit_nan (type style : String) :
    getFormattedUnit type style none = .ok none := rfl

/-- A successful `jsIndexOf` marks a real occurrence: the found index
plus the needle's length stays within the haystack. -/
theorem jsIndexOf_le (s t : String) (n : ℕ) (h : jsIndexOf s t = (n : ℤ)) :
    n + t.length ≤ s.length := by
  unfold jsIndexOf at h
  rcases hf : (List.range (s.length + 1)).find?
      (fun i => t.toList.isPrefixOf (s.toList.drop i)) with _ | i
  · rw [hf] at h
    simp only [Option.map_none', Option.getD_none] at h
    omega
  · rw [hf] at h
    simp only [Option.map_some', Option.getD_some, Int.ofNat_eq_natCast, Nat.cast_inj] at h
    have hi : i = n := by omega
    subst hi
    have hp := List.find?_some hf
    have hmem := List.mem_of_find?_eq_some hf
    have hin : i < s.length + 1 := List.mem_range.mp hmem
    have hpre : t.toList <+: s.toList.drop i := by
      simpa [ List.isPrefixOf_iff_prefix] using hp
    have hlen := hpre.length_le
    have h1 : t.toList.length = t.length := rfl
    have h2 : s.toList.length = s.length := rfl
    rw [List.length_drop] at hlen
    omega

/-- `substring` with in-range, ordered natural indices is plain
take/drop. -/
theorem jsSubstring_of_le (s : String) (a b : ℕ) (hab : a ≤ b) (hb : b ≤ s.length) :
    jsSubstring s (a : ℤ) (b : ℤ) = String.mk ((s.toList.take b).drop a) := by
  simp only [jsSubstring]
  rw [max_eq_left (by omega : (0 : ℤ) ≤ (a : ℤ)),
    max_eq_left (by omega : (0 : ℤ) ≤ (b : ℤ)),
    min_eq_left (by omega : (a : ℤ) ≤ (s.length : ℤ)),
    min_eq_left (by omega : (b : ℤ) ≤ (s.length : ℤ)),
    min_eq_left (by omega : (a : ℤ) ≤ (b : ℤ)),
    max_eq_right (by omega : (a : ℤ) ≤ (b : ℤ))]
  simp

/-- C8 counterexample: on the pattern `"mm:ss"`, which does not contain
`maxUnit = hour`'s token `hh`, `trimDurationPattern` does not fail with
any error: `indexOf` yields -1, `substring` clamps it to 0, and the
whole pattern is returned. -/
theorem trimDurationPattern_absent_counterexample :
    trimDurationPattern "mm:ss" "hour" "second" = "mm:ss" := by decide

/-- C8 amended: for every pattern and pair of known units whose tokens
both occur in the pattern — with the first occurrence of `maxUnit`'s
token starting no later than the end of the first occurrence of
`minUnit`'s token — `trim` returns the contiguous substring of the
pattern from the first occurrence of `maxUnit`'s token through the last
character of the (first occurrence of) `minUnit`'s token.  When a token
is absent, no `UnknownUnit` error is raised: `indexOf` returns -1 and
`substring` silently clamps it. -/
theorem trimDurationPattern_substring (s maxUnit minUnit : String) (a b : ℕ)
    (_hmax : (durationFormatElements maxUnit).isSome)
    (_hmin : (durationFormatElements minUnit).isSome)
    (ha : jsIndexOf s (durationToken maxUnit) = (a : ℤ))
    (hb : jsIndexOf s (durationToken minUnit) = (b : ℤ))
    (hord : a ≤ b + (durationToken minUnit).length) :
    trimDurationPattern s maxUnit minUnit =
      String.mk ((s.toList.take (b + (durationToken minUnit).length)).drop a) := by
  have hbound := jsIndexOf_le s (durationToken minUnit) b hb
  simp only [trimDurationPattern]
  rw [ha, hb]
  rw [show (b : ℤ) + ((durationToken minUnit).length : ℤ) =
      ((b + (durationToken minUnit).length : ℕ) : ℤ) by push_cast; ring]
  exact jsSubstring_of_le s a (b + (durationToken minUnit).length) hord (by omega)

/-- C8 witness: the amended theorem applied to the pattern
`"hh:mm:ss.SS"` with `maxUnit = hour` (token at 0) and
`minUnit = second` (token at 6). -/
theorem trimDurationPattern_substring_witness :
    (durationFormatElements "hour").isSome = true ∧
    jsIndexOf "hh:mm:ss.SS" (durationToken "hour") = (0 : ℤ) ∧
    jsIndexOf "hh:mm:ss.SS" (durationToken "second") = (6 : ℤ) ∧
    trimDurationPattern "hh:mm:ss.SS" "hour" "second" =
      String.mk ((("hh:mm:ss.SS" : String).toList.take
        (6 + (durationToken "second").length)).drop 0) :=
  ⟨rfl, by decide, by decide,
    trimDurationPattern_substring "hh:mm:ss.SS" "hour" "second" 0 6
      (by decide) (by decide) (by decide) (by decide) (by decide)⟩

/-! ### Arithmetic helpers for the duration-split proofs -/

/-- The ratio `durationValueAt i / durationValueAt j` for `i ≤ j < 4`
(each duration unit value divides every larger one). -/
def durationRatio (i j : ℕ) : ℕ :=
  match i, j with
  | 0, 0 => 1
  | 0, 1 => 60
  | 0, 2 => 3600
  | 0, 3 => 360000
  | 1, 1 => 1
  | 1, 2 => 60
  | 1, 3 => 6000
  | 2, 2 => 1
  | 2, 3 => 100
  | 3, 3 => 1
  | _, _ => 1

theorem durationValueAt_zero : durationValueAt 0 = 3600000 := rfl

theorem durationValueAt_one : durationValueAt 1 = 60000 := rfl

theorem durationValueAt_two : durationValueAt 2 = 1000 := rfl

theorem durationValueAt_three : durationValueAt 3 = 10 := rfl

theorem durationValueAt_pos (i : ℕ) (hi : i < 4) : 0 < durationValueAt i := by
  interval_cases i <;>
    norm_num [durationValueAt_zero, durationValueAt_one, durationValueAt_two,
      durationValueAt_three]

theorem durationValueAt_ratio (i j : ℕ) (hij : i ≤ j) (hj : j < 4) :
    durationValueAt i = (durationRatio i j : ℚ) * durationValueAt j ∧
      0 < durationRatio i j := by
  interval_cases j <;> interval_cases i <;>
    exact ⟨by norm_num [durationRatio, durationValueAt_zero, durationValueAt_one,
      durationValueAt_two, durationValueAt_three], by norm_num [durationRatio]⟩

theorem jround_intCast (z : ℤ) : jround (z : ℚ) = z := by
  unfold jround
  rw [add_comm, Int.floor_add_int]
  norm_num

theorem jround_natCast (n : ℕ) : jround (n : ℚ) = n := by
  exact_mod_cast jround_intCast (n : ℤ)

/-- `Math.round` lands within half a unit of its argument. -/
theorem jround_close (q : ℚ) : |(jround q : ℚ) - q| ≤ 1 / 2 := by
  unfold jround
  have h1 : (⌊q + 1 / 2⌋ : ℚ) ≤ q + 1 / 2 := Int.floor_le _
  have h2 : q + 1 / 2 - 1 < (⌊q + 1 / 2⌋ : ℚ) := Int.sub_one_lt_floor _
  rw [abs_le]
  constructor <;> linarith

theorem splitGo_zero (input : ℚ) (minIdx i : ℕ) : splitGo input minIdx i 0 = [] := rfl

theorem splitGo_succ (input : ℚ) (minIdx i fuel : ℕ) :
    splitGo input minIdx i (fuel + 1) =
      if i ≤ minIdx then
        (durationFormatOrder.getD i "",
          if i = minIdx then jround (input / durationValueAt i)
          else ⌊input / durationValueAt i⌋) ::
        splitGo (input -
          (if i = minIdx then jround (input / durationValueAt i)
           else ⌊input / durationValueAt i⌋) * durationValueAt i) minIdx (i + 1) fuel
      else [] := rfl

theorem breakdownSum_nil : breakdownSum [] = 0 := rfl

theorem breakdownSum_cons (p : String × ℤ) (l : List (String × ℤ)) :
    breakdownSum (p :: l) = (p.2 : ℚ) * durationValue p.1 + breakdownSum l := by
  simp [breakdownSum]

theorem durationValue_getD (i : ℕ) :
    durationValue (durationFormatOrder.getD i "") = durationValueAt i := rfl

/-- The floor step of the split at a unit strictly above the minimum:
the magnitude is the natural division by the unit ratio, and the
remaining input is the corresponding remainder (still a multiple of the
minimum unit's value). -/
theorem splitGo_head_step (i minIdx n : ℕ) (hlt : i < minIdx) (h4 : minIdx < 4) :
    ⌊((n : ℚ) * durationValueAt minIdx) / durationValueAt i⌋ =
      ((n / durationRatio i minIdx : ℕ) : ℤ) ∧
    (n : ℚ) * durationValueAt minIdx -
      ((n / durationRatio i minIdx : ℕ) : ℚ) * durationValueAt i =
      ((n % durationRatio i minIdx : ℕ) : ℚ) * durationValueAt minIdx := by
  obtain ⟨hfact, hcpos⟩ := durationValueAt_ratio i minIdx (le_of_lt hlt) h4
  have hm : (0 : ℚ) < durationValueAt minIdx := durationValueAt_pos minIdx h4
  have hdiv : ((n : ℚ) * durationValueAt minIdx) / durationValueAt i =
      (n : ℚ) / (durationRatio i minIdx : ℚ) := by
    rw [hfact, mul_div_mul_comm, div_self hm.ne', mul_one]
  have hcast : (n : ℚ) = (durationRatio i minIdx : ℚ) *
      ((n / durationRatio i minIdx : ℕ) : ℚ) + ((n % durationRatio i minIdx : ℕ) : ℚ) := by
    exact_mod_cast (Nat.div_add_mod n (durationRatio i minIdx)).symm
  constructor
  · rw [hdiv, Rat.floor_natCast_div_natCast]
    exact (Int.ofNat_div n (durationRatio i minIdx)).symm
  · rw [hfact]
    nth_rewrite 1 [hcast]
    ring

/-- The split of `n` copies of the minimum unit's value, started at any
index `i ≤ minIdx` with exactly the remaining fuel, sums back to the
input: every floor step leaves a remainder that is still a multiple of
the minimum value, and the final rounding step is exact. -/
theorem splitGo_sum (fuel : ℕ) :
    ∀ (i minIdx n : ℕ), minIdx < 4 → i + fuel = minIdx + 1 → i ≤ minIdx →
      breakdownSum (splitGo ((n : ℚ) * durationValueAt minIdx) minIdx i fuel) =
        (n : ℚ) * durationValueAt minIdx := by
  induction fuel with
  | zero =>
    intro i minIdx n _ hsum hle
    omega
  | succ fuel ih =>
    intro i minIdx n h4 hsum hle
    have hm : (0 : ℚ) < durationValueAt minIdx := durationValueAt_pos minIdx h4
    by_cases hmin : i = minIdx
    · subst hmin
      have hf : fuel = 0 := by omega
      subst hf
      rw [splitGo_succ, if_pos le_rfl, if_pos rfl, splitGo_zero,
        mul_div_cancel_right₀ _ hm.ne', jround_natCast, breakdownSum_cons,
        breakdownSum_nil, durationValue_getD]
      push_cast
      ring
    · have hlt : i < minIdx := lt_of_le_of_ne hle hmin
      obtain ⟨hfl, hrem⟩ := splitGo_head_step i minIdx n hlt h4
      rw [splitGo_succ, if_pos hle, if_neg hmin, hfl, breakdownSum_cons]
      have hmag : (((n / durationRatio i minIdx : ℕ) : ℤ) : ℚ) =
          ((n / durationRatio i minIdx : ℕ) : ℚ) := Int.cast_natCast _
      rw [hmag, hrem, ih (i + 1) minIdx (n % durationRatio i minIdx) h4 (by omega) hlt,
        durationValue_getD]
      obtain ⟨hfact, _⟩ := durationValueAt_ratio i minIdx (le_of_lt hlt) h4
      have hcast : (n : ℚ) = (durationRatio i minIdx : ℚ) *
          ((n / durationRatio i minIdx : ℕ) : ℚ) +
          ((n % durationRatio i minIdx : ℕ) : ℚ) := by
        exact_mod_cast (Nat.div_add_mod n (durationRatio i minIdx)).symm
      rw [hfact, hcast]
      ring

theorem indexOf_getD (u : String) (hu : u ∈ durationFormatOrder) :
    durationFormatOrder.getD (durationFormatOrder.indexOf u) "" = u := by
  fin_cases hu <;> rfl

theorem indexOf_lt_four (u : String) (hu : u ∈ durationFormatOrder) :
    durationFormatOrder.indexOf u < 4 := by
  fin_cases hu <;> decide

/-- C1: for every duration `d` and valid pair `(maxUnit, minUnit)` with
`index(maxUnit) ≤ index(minUnit)`, the pipeline first rounds the whole
input once to the nearest multiple of `minUnit`'s value (before the
per-unit walk: `durationBreakdown` applies `splitIntoTimeUnits` to
`durationPreRound d minUnit`), and the breakdown's
`Σ magnitude[u] * baseValue[u]` reproduces that pre-rounded absolute
value exactly — a multiple of `minUnit`'s value within half a step
of `|d|`. -/
theorem durationBreakdown_lossless (d : ℚ) (maxUnit minUnit : String)
    (hmax : maxUnit ∈ durationFormatOrder) (hmin : minUnit ∈ durationFormatOrder)
    (hord : durationFormatOrder.indexOf maxUnit ≤ durationFormatOrder.indexOf minUnit) :
    durationBreakdown d maxUnit minUnit =
      .ok (splitIntoTimeUnits (durationPreRound d minUnit)
        (durationFormatOrder.indexOf maxUnit) (durationFormatOrder.indexOf minUnit)) ∧
    breakdownSum (splitIntoTimeUnits (durationPreRound d minUnit)
        (durationFormatOrder.indexOf maxUnit) (durationFormatOrder.indexOf minUnit)) =
      |durationPreRound d minUnit| ∧
    (∃ k : ℤ, |durationPreRound d minUnit| = (k : ℚ) * durationValue minUnit) ∧
    abs (|durationPreRound d minUnit| - |d|) ≤ durationValue minUnit / 2 := by
  have h4 : durationFormatOrder.indexOf minUnit < 4 := indexOf_lt_four minUnit hmin
  have hvm : durationValueAt (durationFormatOrder.indexOf minUnit) = durationValue minUnit := by
    unfold durationValueAt
    rw [indexOf_getD minUnit hmin]
  have hm : (0 : ℚ) < durationValue minUnit := hvm ▸ durationValueAt_pos _ h4
  have habs : |durationPreRound d minUnit| =
      (((jround (d / durationValue minUnit)).natAbs : ℕ) : ℚ) * durationValue minUnit := by
    unfold durationPreRound
    rw [abs_mul, abs_of_pos hm]
    congr 1
    rw [Int.cast_natAbs, Int.cast_abs]
  refine ⟨?_, ?_, ?_, ?_⟩
  · have hidx1 : getDurationUnitIdx maxUnit 0 =
        .ok (durationFormatOrder.indexOf maxUnit) := by fin_cases hmax <;> rfl
    have hidx2 : getDurationUnitIdx minUnit (durationFormatOrder.length - 1) =
        .ok (durationFormatOrder.indexOf minUnit) := by fin_cases hmin <;> rfl
    unfold durationBreakdown
    rw [hidx1, hidx2]
    rfl
  · unfold splitIntoTimeUnits
    obtain ⟨n, hn⟩ : ∃ n : ℕ, |durationPreRound d minUnit| =
        (n : ℚ) * durationValueAt (durationFormatOrder.indexOf minUnit) :=
      ⟨(jround (d / durationValue minUnit)).natAbs, by rw [habs, hvm]⟩
    rw [hn]
    exact splitGo_sum _ _ _ n h4 (by omega) hord
  · exact ⟨|jround (d / durationValue minUnit)|, by rw [habs, ← Int.cast_natAbs]⟩
  · have hq := jround_close (d / durationValue minUnit)
    have habs1 : |durationPreRound d minUnit| =
        |(jround (d / durationValue minUnit) : ℚ)| * durationValue minUnit := by
      unfold durationPreRound
      rw [abs_mul, abs_of_pos hm]
    have habs2 : |d / durationValue minUnit| * durationValue minUnit = |d| := by
      nth_rewrite 2 [← abs_of_pos hm]
      rw [← abs_mul, div_mul_cancel₀ _ hm.ne']
    rw [habs1, ← habs2, ← sub_mul, abs_mul, abs_of_pos hm]
    have hstep : abs (|(jround (d / durationValue minUnit) : ℚ)| -
        |d / durationValue minUnit|) ≤ 1 / 2 :=
      le_trans (abs_abs_sub_abs_le_abs_sub _ _) hq
    have := mul_le_mul_of_nonneg_right hstep hm.le
    linarith

/-- C1 witness: the losslessness theorem applied at `d = 5000` with
`maxUnit = hour`, `minUnit = second`. -/
theorem durationBreakdown_lossless_witness :
    "hour" ∈ durationFormatOrder ∧ "second" ∈ durationFormatOrder ∧
    durationFormatOrder.indexOf "hour" ≤ durationFormatOrder.indexOf "second" ∧
    (durationBreakdown 5000 "hour" "second" =
        .ok (splitIntoTimeUnits (durationPreRound 5000 "second")
          (durationFormatOrder.indexOf "hour") (durationFormatOrder.indexOf "second")) ∧
      breakdownSum (splitIntoTimeUnits (durationPreRound 5000 "second")
          (durationFormatOrder.indexOf "hour") (durationFormatOrder.indexOf "second")) =
        |durationPreRound 5000 "second"| ∧
      (∃ k : ℤ, |durationPreRound 5000 "second"| = (k : ℚ) * durationValue "second") ∧
      abs (|durationPreRound 5000 "second"| - |(5000 : ℚ)|) ≤ durationValue "second" / 2) :=
  ⟨by decide, by decide, by decide,
    durationBreakdown_lossless 5000 "hour" "second" (by decide) (by decide) (by decide)⟩

theorem splitGo_length (fuel : ℕ) :
    ∀ (input : ℚ) (i minIdx : ℕ), i + fuel = minIdx + 1 →
      (splitGo input minIdx i fuel).length = fuel := by
  induction fuel with
  | zero => intro input i minIdx _; rfl
  | succ fuel ih =>
    intro input i minIdx h
    have hle : i ≤ minIdx := by omega
    rw [splitGo_succ, if_pos hle]
    simp [ih _ (i + 1) minIdx (by omega)]

/-- Every entry of a split started at index `i ≥ 1` on an input that is a
multiple of the minimum unit's value and smaller than the unit above `i`
carries the unit name at its position, a non-negative magnitude, and a
magnitude bounded by the ratio to the next-larger unit. -/
theorem splitGo_bounded (fuel : ℕ) :
    ∀ (i minIdx n : ℕ), minIdx < 4 → i + fuel = minIdx + 1 → 1 ≤ i →
      (n : ℚ) * durationValueAt minIdx < durationValueAt (i - 1) →
      ∀ k, k < fuel →
        ((splitGo ((n : ℚ) * durationValueAt minIdx) minIdx i fuel).getD k ("", 0)).1 =
          durationFormatOrder.getD (i + k) "" ∧
        0 ≤ ((splitGo ((n : ℚ) * durationValueAt minIdx) minIdx i fuel).getD k ("", 0)).2 ∧
        (((splitGo ((n : ℚ) * durationValueAt minIdx) minIdx i fuel).getD k ("", 0)).2 : ℚ) *
            durationValueAt (i + k) < durationValueAt (i + k - 1) := by
  induction fuel with
  | zero => intro i minIdx n _ _ _ _ k hk; omega
  | succ fuel ih =>
    intro i minIdx n h4 hsum h1i hbound k hk
    have hle : i ≤ minIdx := by omega
    have hm : (0 : ℚ) < durationValueAt minIdx := durationValueAt_pos minIdx h4
    by_cases hmin : i = minIdx
    · have hf : fuel = 0 := by omega
      have hk0 : k = 0 := by omega
      subst hf hk0
      rw [splitGo_succ, if_pos hle, if_pos hmin]
      subst hmin
      rw [mul_div_cancel_right₀ _ hm.ne', jround_natCast]
      simp only [List.getD_cons_zero, Nat.add_zero]
      refine ⟨trivial, Int.natCast_nonneg n, ?_⟩
      rw [Int.cast_natCast]
      exact hbound
    · have hlt : i < minIdx := lt_of_le_of_ne hle hmin
      obtain ⟨hfl, hrem⟩ := splitGo_head_step i minIdx n hlt h4
      obtain ⟨hfact, hcpos⟩ := durationValueAt_ratio i minIdx (le_of_lt hlt) h4
      rw [splitGo_succ, if_pos hle, if_neg hmin, hfl]
      cases k with
      | zero =>
        simp only [List.getD_cons_zero, Nat.add_zero]
        refine ⟨trivial, Int.natCast_nonneg _, ?_⟩
        rw [Int.cast_natCast]
        refine lt_of_le_of_lt ?_ hbound
        rw [hfact]
        have hdc : ((n / durationRatio i minIdx : ℕ) : ℚ) * (durationRatio i minIdx : ℚ) ≤
            (n : ℚ) := by
          exact_mod_cast Nat.div_mul_le_self n (durationRatio i minIdx)
        calc ((n / durationRatio i minIdx : ℕ) : ℚ) *
              ((durationRatio i minIdx : ℚ) * durationValueAt minIdx)
            = ((n / durationRatio i minIdx : ℕ) : ℚ) * (durationRatio i minIdx : ℚ) *
              durationValueAt minIdx := by ring
          _ ≤ (n : ℚ) * durationValueAt minIdx :=
            mul_le_mul_of_nonneg_right hdc hm.le
      | succ k' =>
        simp only [List.getD_cons_succ]
        rw [Int.cast_natCast, hrem]
        have hmodlt : n % durationRatio i minIdx < durationRatio i minIdx :=
          Nat.mod_lt _ hcpos
        have hbound' : ((n % durationRatio i minIdx : ℕ) : ℚ) * durationValueAt minIdx <
            durationValueAt (i + 1 - 1) := by
          have hq : ((n % durationRatio i minIdx : ℕ) : ℚ) < (durationRatio i minIdx : ℚ) := by
            exact_mod_cast hmodlt
          have h2 := mul_lt_mul_of_pos_right hq hm
          simpa [hfact] using h2
        have hgoal := ih (i + 1) minIdx (n % durationRatio i minIdx) h4 (by omega) (by omega)
          hbound' k' (by omega)
        have hidx : i + 1 + k' = i + (k' + 1) := by omega
        rw [hidx] at hgoal
        exact hgoal

/-- C10 (implicit invariant): for every input that is an integer multiple
of `minUnit`'s value and every valid `(maxUnit, minUnit)` pair, each
entry of the breakdown strictly below `maxUnit` carries the unit name at
its position, a non-negative integer magnitude, and a magnitude whose
value-weighted size is strictly below the next-larger unit's value
(`magnitude * baseValue[unit] < baseValue[next-larger unit]`, i.e.
minute ≤ 59, second ≤ 59, tens-of-milliseconds ≤ 99); only the `maxUnit`
entry is unbounded. -/
theorem splitIntoTimeUnits_bounded (z : ℤ) (maxUnit minUnit : String)
    (_hmax : maxUnit ∈ durationFormatOrder) (hmin : minUnit ∈ durationFormatOrder)
    (hord : durationFormatOrder.indexOf maxUnit ≤ durationFormatOrder.indexOf minUnit)
    (k : ℕ) (hk1 : 1 ≤ k)
    (hk2 : k < (splitIntoTimeUnits ((z : ℚ) * durationValue minUnit)
      (durationFormatOrder.indexOf maxUnit) (durationFormatOrder.indexOf minUnit)).length) :
    ((splitIntoTimeUnits ((z : ℚ) * durationValue minUnit)
        (durationFormatOrder.indexOf maxUnit)
        (durationFormatOrder.indexOf minUnit)).getD k ("", 0)).1 =
      durationFormatOrder.getD (durationFormatOrder.indexOf maxUnit + k) "" ∧
    0 ≤ ((splitIntoTimeUnits ((z : ℚ) * durationValue minUnit)
        (durationFormatOrder.indexOf maxUnit)
        (durationFormatOrder.indexOf minUnit)).getD k ("", 0)).2 ∧
    (((splitIntoTimeUnits ((z : ℚ) * durationValue minUnit)
        (durationFormatOrder.indexOf maxUnit)
        (durationFormatOrder.indexOf minUnit)).getD k ("", 0)).2 : ℚ) *
        durationValueAt (durationFormatOrder.indexOf maxUnit + k) <
      durationValueAt (durationFormatOrder.indexOf maxUnit + k - 1) := by
  have h4 : durationFormatOrder.indexOf minUnit < 4 := indexOf_lt_four minUnit hmin
  have hvm : durationValueAt (durationFormatOrder.indexOf minUnit) = durationValue minUnit := by
    unfold durationValueAt
    rw [indexOf_getD minUnit hmin]
  have hm : (0 : ℚ) < durationValueAt (durationFormatOrder.indexOf minUnit) :=
    durationValueAt_pos _ h4
  have hmv : (0 : ℚ) < durationValue minUnit := by
    rw [← hvm]
    exact hm
  have habsz : |(z : ℚ) * durationValue minUnit| =
      ((z.natAbs : ℕ) : ℚ) * durationValueAt (durationFormatOrder.indexOf minUnit) := by
    rw [abs_mul, abs_of_pos hmv, ← hvm]
    congr 1
    rw [Int.cast_natAbs, Int.cast_abs]
  have hlen : (splitIntoTimeUnits ((z : ℚ) * durationValue minUnit)
      (durationFormatOrder.indexOf maxUnit) (durationFormatOrder.indexOf minUnit)).length =
      durationFormatOrder.indexOf minUnit + 1 - durationFormatOrder.indexOf maxUnit := by
    unfold splitIntoTimeUnits
    exact splitGo_length _ _ _ _ (by omega)
  rw [hlen] at hk2
  have hltidx : durationFormatOrder.indexOf maxUnit < durationFormatOrder.indexOf minUnit := by
    omega
  unfold splitIntoTimeUnits
  rw [habsz]
  rw [show durationFormatOrder.indexOf minUnit + 1 - durationFormatOrder.indexOf maxUnit =
    (durationFormatOrder.indexOf minUnit - durationFormatOrder.indexOf maxUnit) + 1 by omega]
  rw [splitGo_succ, if_pos (le_of_lt hltidx), if_neg (Nat.ne_of_lt hltidx)]
  obtain ⟨hfl, hrem⟩ := splitGo_head_step (durationFormatOrder.indexOf maxUnit)
    (durationFormatOrder.indexOf minUnit) z.natAbs hltidx h4
  rw [hfl]
  obtain ⟨k', rfl⟩ : ∃ k', k = k' + 1 := ⟨k - 1, by omega⟩
  simp only [List.getD_cons_succ]
  rw [Int.cast_natCast, hrem]
  obtain ⟨hfact, hcpos⟩ := durationValueAt_ratio (durationFormatOrder.indexOf maxUnit)
    (durationFormatOrder.indexOf minUnit) (le_of_lt hltidx) h4
  have hbound' : ((z.natAbs % durationRatio (durationFormatOrder.indexOf maxUnit)
        (durationFormatOrder.indexOf minUnit) : ℕ) : ℚ) *
      durationValueAt (durationFormatOrder.indexOf minUnit) <
      durationValueAt (durationFormatOrder.indexOf maxUnit + 1 - 1) := by
    have hq : ((z.natAbs % durationRatio (durationFormatOrder.indexOf maxUnit)
        (durationFormatOrder.indexOf minUnit) : ℕ) : ℚ) <
        (durationRatio (durationFormatOrder.indexOf maxUnit)
          (durationFormatOrder.indexOf minUnit) : ℚ) := by
      exact_mod_cast Nat.mod_lt _ hcpos
    have h2 := mul_lt_mul_of_pos_right hq hm
    simpa [hfact] using h2
  have hgoal := splitGo_bounded
    (durationFormatOrder.indexOf minUnit - durationFormatOrder.indexOf maxUnit)
    (durationFormatOrder.indexOf maxUnit + 1) (durationFormatOrder.indexOf minUnit)
    (z.natAbs % durationRatio (durationFormatOrder.indexOf maxUnit)
      (durationFormatOrder.indexOf minUnit))
    h4 (by omega) (by omega) hbound' k' (by omega)
  have hidx : durationFormatOrder.indexOf maxUnit + 1 + k' =
      durationFormatOrder.indexOf maxUnit + (k' + 1) := by omega
  rw [hidx] at hgoal
  exact hgoal

/-- C10 witness: the invariant applied to `z = 7326` seconds
(02:02:06) split from hour down to second, at entry `k = 1` (minute). -/
theorem splitIntoTimeUnits_bounded_witness :
    "hour" ∈ durationFormatOrder ∧ "second" ∈ durationFormatOrder ∧
    durationFormatOrder.indexOf "hour" ≤ durationFormatOrder.indexOf "second" ∧
    1 ≤ 1 ∧
    1 < (splitIntoTimeUnits (((7326 : ℤ) : ℚ) * durationValue "second")
      (durationFormatOrder.indexOf "hour") (durationFormatOrder.indexOf "second")).length ∧
    (((splitIntoTimeUnits (((7326 : ℤ) : ℚ) * durationValue "second")
        (durationFormatOrder.indexOf "hour")
        (durationFormatOrder.indexOf "second")).getD 1 ("", 0)).1 =
      durationFormatOrder.getD (durationFormatOrder.indexOf "hour" + 1) "" ∧
    0 ≤ ((splitIntoTimeUnits (((7326 : ℤ) : ℚ) * durationValue "second")
        (durationFormatOrder.indexOf "hour")
        (durationFormatOrder.indexOf "second")).getD 1 ("", 0)).2 ∧
    (((splitIntoTimeUnits (((7326 : ℤ) : ℚ) * durationValue "second")
        (durationFormatOrder.indexOf "hour")
        (durationFormatOrder.indexOf "second")).getD 1 ("", 0)).2 : ℚ) *
        durationValueAt (durationFormatOrder.indexOf "hour" + 1) <
      durationValueAt (durationFormatOrder.indexOf "hour" + 1 - 1)) :=
  ⟨by decide, by decide, by decide, le_rfl, by decide,
    splitIntoTimeUnits_bounded 7326 "hour" "second" (by decide) (by decide) (by decide) 1
      le_rfl (by decide)⟩

/-- C4 counterexample: with the reversed pair `maxUnit = "second"`,
`minUnit = "minute"` (index 2 > index 1) the duration pipeline does not
fail at all: it succeeds with an empty breakdown, because the walk from
`maxUnitIdx` to `minUnitIdx` runs zero iterations.  No `InvalidRange`
error exists anywhere in the code. -/
theorem durationBreakdown_reversed_counterexample :
    durationBreakdown 5000 "second" "minute" = .ok [] := rfl

/-- C4 amended: for every pair of known duration unit names passed in
reverse order (`index(maxUnit) > index(minUnit)`), the split succeeds and
returns an empty breakdown — the per-unit loop body never runs; no error
is raised. -/
theorem durationBreakdown_reversed (d : ℚ) (maxUnit minUnit : String)
    (hmax : maxUnit ∈ durationFormatOrder) (hmin : minUnit ∈ durationFormatOrder)
    (hrev : durationFormatOrder.indexOf minUnit < durationFormatOrder.indexOf maxUnit) :
    durationBreakdown d maxUnit minUnit = .ok [] := by
  simp only [durationFormatOrder, List.mem_cons, List.mem_singleton,
    List.not_mem_nil, or_false] at hmax hmin
  rcases hmax with rfl | rfl | rfl | rfl <;> rcases hmin with rfl | rfl | rfl | rfl <;>
    first
      | rfl
      | exact absurd hrev (by decide)

/-- C4 witness: the amended theorem applied at `d = 7`,
`maxUnit = "millisecond"`, `minUnit = "hour"`. -/
theorem durationBreakdown_reversed_witness :
    "millisecond" ∈ durationFormatOrder ∧ "hour" ∈ durationFormatOrder ∧
    durationFormatOrder.indexOf "hour" < durationFormatOrder.indexOf "millisecond" ∧
    durationBreakdown 7 "millisecond" "hour" = .ok [] :=
  ⟨by decide, by decide, by decide,
    durationBreakdown_reversed 7 "millisecond" "hour" (by decide) (by decide) (by decide)⟩

/-- C5 counterexample: for `target = now - 2000` (with `now = 100000`),
`resolve(target, {unit: 'bestFit', style: 'long'}, now)` returns the key
`minutes-until-long` (magnitude 0), not `minutes-ago-long`: the minute
magnitude rounds to 0 and the tense test `v < 0` fails at `v = 0`, so the
`-until` suffix is chosen. -/
theorem relativeTimeFormatId_two_seconds_counterexample :
    relativeTimeFormatId (100000 - 2000) ⟨"bestFit", some "long"⟩ 100000 =
      ("minutes-until-long", 0) ∧
    (relativeTimeFormatId (100000 - 2000) ⟨"bestFit", some "long"⟩ 100000).1 ≠
      "minutes-ago-long" := by
  have h : (100000 - 2000 - 100000 : ℚ) = -2000 := by norm_num
  have hu : computeTimeUnits (-2000 : ℚ) = ⟨-2000, -2, 0, 0, 0, 0, 0, 0, 0⟩ := by
    simp only [computeTimeUnits, jround]
    norm_num
  have hkey : relativeTimeFormatId (100000 - 2000) ⟨"bestFit", some "long"⟩ 100000 =
      ("minutes-until-long", 0) := by
    simp only [relativeTimeFormatId, h, hu]
    decide
  exact ⟨hkey, by rw [hkey]; decide⟩

/-- C5 amended: for every `now`, `resolve(now - 2000, {unit: 'bestFit',
style: 'long'}, now)` returns the message key `minutes-until-long` with
magnitude 0 (the cascade gives minute = 0; bestFit picks minute since
`|minute| < 45`; and `v = 0` is not `< 0`, so the tense is `-until`). -/
theorem relativeTimeFormatId_minus_two_seconds (now : ℚ) :
    relativeTimeFormatId (now - 2000) ⟨"bestFit", some "long"⟩ now =
      ("minutes-until-long", 0) := by
  have h : now - 2000 - now = (-2000 : ℚ) := by ring
  have hu : computeTimeUnits (-2000 : ℚ) = ⟨-2000, -2, 0, 0, 0, 0, 0, 0, 0⟩ := by
    simp only [computeTimeUnits, jround]
    norm_num
  simp only [relativeTimeFormatId, h, hu]
  decide

/-- C6: for every target time, now, unit choice (explicit known unit or
`bestFit`) and style, the resolver returns message key
`unit + "s" + tense + "-" + style` with tense `-ago` exactly when
`v < 0` and `-until` otherwise, `v = units[unit]` being the
cascading-rounded magnitude; the style defaults to `long` when absent;
and the returned magnitude is `|v|`, hence non-negative. -/
theorem relativeTimeFormatId_key_shape (x nowMs : ℚ) (u : String) (st : Option String)
    (_hu : u = "bestFit" ∨ u ∈ relativeUnitNames) :
    (relativeTimeFormatId x ⟨u, st⟩ nowMs).1 =
      (if u = "bestFit" then getBestMatchUnit (computeTimeUnits (x - nowMs)) else u)
        ++ "s"
        ++ (if unitsGet (computeTimeUnits (x - nowMs))
              (if u = "bestFit" then getBestMatchUnit (computeTimeUnits (x - nowMs)) else u) < 0
            then "-ago" else "-until")
        ++ "-" ++ st.getD "long" ∧
    (relativeTimeFormatId x ⟨u, st⟩ nowMs).2 =
      |unitsGet (computeTimeUnits (x - nowMs))
        (if u = "bestFit" then getBestMatchUnit (computeTimeUnits (x - nowMs)) else u)| ∧
    0 ≤ (relativeTimeFormatId x ⟨u, st⟩ nowMs).2 :=
  ⟨rfl, rfl, abs_nonneg _⟩

/-- C6 witness: the key-shape theorem applied at `x = 7200000`,
`now = 0`, explicit unit `hour`, absent style. -/
theorem relativeTimeFormatId_key_shape_witness :
    ("hour" = "bestFit" ∨ "hour" ∈ relativeUnitNames) ∧
    ((relativeTimeFormatId 7200000 ⟨"hour", none⟩ 0).1 =
      (if "hour" = "bestFit" then getBestMatchUnit (computeTimeUnits (7200000 - 0)) else "hour")
        ++ "s"
        ++ (if unitsGet (computeTimeUnits (7200000 - 0))
              (if "hour" = "bestFit" then getBestMatchUnit (computeTimeUnits (7200000 - 0))
               else "hour") < 0
            then "-ago" else "-until")
        ++ "-" ++ (none : Option String).getD "long" ∧
    (relativeTimeFormatId 7200000 ⟨"hour", none⟩ 0).2 =
      |unitsGet (computeTimeUnits (7200000 - 0))
        (if "hour" = "bestFit" then getBestMatchUnit (computeTimeUnits (7200000 - 0))
         else "hour")| ∧
    0 ≤ (relativeTimeFormatId 7200000 ⟨"hour", none⟩ 0).2) :=
  ⟨Or.inr (by decide),
    relativeTimeFormatId_key_shape 7200000 0 "hour" none (Or.inr (by decide))⟩

end MozIntl
